import Mathlib

/-!
Verification of the Osdag column plugin (`src/column_plugin/plugin.py`).

The plugin mutates a host application's in-memory module registry (a
string-keyed mapping from category names to lists of descriptor tuples
followed by a trailing callable) and best-effort patches live Qt widgets.
This file gives a shallow embedding of the plugin's data model and of
`ColumnPlugin.register`, `ColumnPlugin.deactivate`,
`ColumnPlugin.find_main_window`, `ColumnPlugin._find_modules_dict` (with its
inner recursive `search_for_modules`) and `ColumnPlugin._update_live_ui`,
and proves the testable properties stated in the specification.

Modelling conventions:
* Python objects reachable from the main window are a finite heap
  `Host.objs`, indexed by position (the index plays the role of `id(obj)`).
* A Python attribute that may be absent is an `Option` field; `hasattr`
  is `Option.isSome` of that field.
* Exceptions escaping to the caller are the `exn` field of the `Run`
  result; `Error:`-prefixed messages printed to stdout are the `errLog`
  field (informational prints are not modelled).
* The unbounded Python recursion in `search_for_modules` is embedded with
  a fuel parameter; the theorems below show the result is independent of
  the fuel once it exceeds the number of objects in the heap, which is the
  termination argument of the Python code (the visited set, tracked by
  object identity, can only grow).
* Qt-internal state (layout cell coordinates, button groups, pending
  `deleteLater` deletions) and host callback methods (the four optional
  refresh hooks, `show_compression_module`'s body, `module_window.close`)
  are outside the model: they do not touch the registry.  Presence of the
  `show_compression_module` attribute is modelled because reading it can
  raise `AttributeError`.
-/

/-- Exception kinds that can escape the plugin's methods. -/
inductive PyErr where
  | attributeError
  | indexError
deriving Repr, DecidableEq

/-- The static part of the `Error:`-prefixed messages the plugin prints.
`noModulesDict` is `Error: Could not find Modules dictionary`;
`cmNotFound` is `Error: Compression Member module not found in Modules
dictionary`; `cmNotAList` is `Error: Compression Member module is not a
list ...`; `cmNoHandler` is the missing-handler-function message. -/
inductive LogMsg where
  | noModulesDict
  | cmNotFound
  | cmNotAList
  | cmNoHandler
deriving Repr, DecidableEq

/-- An element of a registry category list: a Python tuple of strings, a
callable (identified by a tag), or any other object (identified by a tag).
Python tuples are never callable; `call` values are the callables. -/
inductive Entry where
  | tup (fields : List String)
  | call (tag : Nat)
  | other (tag : Nat)
deriving Repr, DecidableEq

/-- Python `callable(entry)`. -/
def Entry.isCallable : Entry → Bool
  | Entry.call _ => true
  | _ => false

/-- A value of the `Modules` mapping: a list of entries, a callable leaf
handler, or some other object (`isinstance(v, list)` is the `vlist` case). -/
inductive ModValue where
  | vlist (entries : List Entry)
  | vcall (tag : Nat)
  | vother (tag : Nat)
deriving Repr, DecidableEq

/-- The `Modules` registry: an insertion-ordered string-keyed mapping,
as a Python dict is. -/
abbrev ModulesDict := List (String × ModValue)

/-- Python `d[key]` / `key in d` lookup on the registry. -/
def dictLookup : ModulesDict → String → Option ModValue
  | [], _ => none
  | (k, v) :: rest, key => if k = key then some v else dictLookup rest key

/-- In-place replacement of the value stored at `key` (the effect, seen
through the dict, of mutating the list object `d[key]` in place). -/
def dictUpdate : ModulesDict → String → ModValue → ModulesDict
  | [], _, _ => []
  | (k, v) :: rest, key, nv =>
      if k = key then (k, nv) :: rest else (k, v) :: dictUpdate rest key nv

/-- The fixed category key `'Compression Member'` used by the plugin. -/
def cmKey : String := "Compression Member"

/-- The image path computed by `ColumnPlugin.get_image_path`.  The real
value is an environment-dependent resource path; no property depends on
it, so it is modelled by the resource file name. -/
def columnImagePath : String := "CompressionMembers_ColumnsInFrames.png"

/-- The descriptor tuple `('Axially Loaded Column', image_path,
'Column_Design')` built in `register` (plugin.py line 181). -/
def columnEntry : Entry :=
  Entry.tup ["Axially Loaded Column", columnImagePath, "Column_Design"]

/-- The match test of `deactivate`'s removal loop (plugin.py lines
376-377): `isinstance(item, tuple) and len(item) >= 3 and
item[2] == 'Column_Design'`. -/
def isColumnDescriptor : Entry → Bool
  | Entry.tup fs => decide (3 ≤ fs.length) && decide (fs[2]? = some "Column_Design")
  | _ => false

/-- The effect of `deactivate`'s loop (plugin.py lines 375-381) on the
category list: pop the first entry matching `isColumnDescriptor`, keep
everything else in place; no match means no change. -/
def removeFirstColumn : List Entry → List Entry
  | [] => []
  | e :: rest =>
      if isColumnDescriptor e then rest else e :: removeFirstColumn rest

/-- A 3-field descriptor tuple `(display_name, image_path, identifier)`. -/
def isDescriptor : Entry → Bool
  | Entry.tup fs => decide (fs.length = 3)
  | _ => false

/-- A well-formed `'Compression Member'` list: descriptor tuples followed
by a trailing callable. -/
def wellFormedCM (es : List Entry) : Bool :=
  match es.getLast? with
  | some e => es.dropLast.all isDescriptor && e.isCallable
  | none => false

/-- The invariant assumed by the plugin: the list's last element is a
callable. -/
def lastCallable (es : List Entry) : Bool :=
  match es.getLast? with
  | some e => e.isCallable
  | none => false

/-- A page of the host's `myStackedWidget`, restricted to the state the
plugin reads or writes: whether `findChild(QRadioButton, 'Strut_Design')`
finds a button, whether `findChild(QRadioButton, 'Column_Design')` finds
one, that button's parent widget (by tag) when it exists, and whether
`page.ui.gridLayout` exists. -/
structure Pg where
  hasStrut : Bool
  hasColumnBtn : Bool
  columnParent : Option Nat
  uiHasGrid : Bool
deriving Repr, DecidableEq

/-- A Python object on the host heap, restricted to the attributes the
plugin probes.  `Option` fields model possibly-absent attributes;
object-valued attributes hold heap indices.  When the `Modules` attribute
is present it holds a mapping, per the host's data model. -/
structure Obj where
  modules : Option ModulesDict
  ui : Option Nat
  uiStack : Option (List Pg)
  className : String
  hasShowCompression : Bool
  childIds : List Nat
deriving Repr, DecidableEq

/-- The reachable host state: the heap, the ids of the top-level widgets
(`QApplication.topLevelWidgets()`), and the plugin's `main_win`
attribute (`none` models Python `None`). -/
structure Host where
  objs : List Obj
  topLevel : List Nat
  mainWin : Option Nat
deriving Repr, DecidableEq

/-- Heap dereference. -/
def Host.obj? (h : Host) (i : Nat) : Option Obj := h.objs[i]?

/-- `getattr(obj_i, 'Modules', absent)`. -/
def getModulesOf (h : Host) (i : Nat) : Option ModulesDict :=
  (h.obj? i).bind (fun o => o.modules)

/-- `getattr(obj_i, 'ui', absent)`. -/
def uiOf (h : Host) (i : Nat) : Option Nat :=
  (h.obj? i).bind (fun o => o.ui)

/-- `getattr(obj_i, 'myStackedWidget', absent)`, as its list of pages. -/
def stackOf (h : Host) (i : Nat) : Option (List Pg) :=
  (h.obj? i).bind (fun o => o.uiStack)

/-- `obj_i.__class__.__name__`. -/
def classNameOf (h : Host) (i : Nat) : String :=
  match h.obj? i with
  | some o => o.className
  | none => ""

/-- `hasattr(real_main_window, 'show_compression_module')`, through an
optional window reference (`none` is Python `None`, which has no such
attribute). -/
def hostHasShow (h : Host) (w : Option Nat) : Bool :=
  match w with
  | none => false
  | some i =>
      match h.obj? i with
      | some o => o.hasShowCompression
      | none => false

/-- Write a new registry value into the object holding the `Modules`
attribute (the in-place dict mutation of plugin.py line 184 / 379, seen
at its holder). -/
def setModulesAt (h : Host) (i : Nat) (d : ModulesDict) : Host :=
  match h.objs[i]? with
  | none => h
  | some o => { h with objs := h.objs.set i { o with modules := some d } }

/-- Replace the page list of the stacked widget stored at object `i`. -/
def setObjStack (h : Host) (i : Nat) (pages : List Pg) : Host :=
  match h.objs[i]? with
  | none => h
  | some o => { h with objs := h.objs.set i { o with uiStack := some pages } }

/-- The children loop of `search_for_modules` (plugin.py lines 129-132):
run `step` on each child in turn, threading the (mutably shared) visited
set, and stop at the first hit. -/
def goChildren (step : Nat → List Nat → Option (Nat × ModulesDict) × List Nat) :
    List Nat → List Nat → Option (Nat × ModulesDict) × List Nat
  | [], vis => (none, vis)
  | c :: cs, vis =>
      match step c vis with
      | (some r, vis') => (some r, vis')
      | (none, vis') => goChildren step cs vis'

/-- The recursive `search_for_modules` of `_find_modules_dict` (plugin.py
lines 114-135): skip an already-visited object, record the object in the
visited set, return `(widget, widget.Modules)` when the `Modules`
attribute is present, otherwise recurse through the children.  The Python
recursion is unbounded; `fuel` bounds the recursion depth here, and the
termination theorem below shows any fuel beyond the graph size gives the
same result.  The search sees only the widget graph `g` (the function
closes over no other state in the source); a dangling index has no
attributes and no children. -/
def searchFM (g : List Obj) : Nat → Nat → List Nat → Option (Nat × ModulesDict) × List Nat
  | 0, _, vis => (none, vis)
  | fuel + 1, i, vis =>
      if i ∈ vis then (none, vis)
      else
        match g[i]? with
        | none => (none, i :: vis)
        | some o =>
            match o.modules with
            | some d => (some (i, d), i :: vis)
            | none => goChildren (searchFM g fuel) o.childIds (i :: vis)

/-- Children concatenation step for the depth-first visit order. -/
def dfsGo (step : Nat → List Nat → List Nat × List Nat) :
    List Nat → List Nat → List Nat × List Nat
  | [], vis => ([], vis)
  | c :: cs, vis =>
      match step c vis with
      | (l1, vis1) =>
          match dfsGo step cs vis1 with
          | (l2, vis2) => (l1 ++ l2, vis2)

/-- The full depth-first preorder of the widget graph under the traversal
of `search_for_modules` (same visited-set discipline, but never stopping
early): the order in which the search examines objects.  This is the
specification-side notion of depth-first order used to state that the
search returns the first object in depth-first order exposing `Modules`. -/
def dfsOrder (g : List Obj) : Nat → Nat → List Nat → List Nat × List Nat
  | 0, _, vis => ([], vis)
  | fuel + 1, i, vis =>
      if i ∈ vis then ([], vis)
      else
        match g[i]? with
        | none => ([i], i :: vis)
        | some o =>
            match dfsGo (dfsOrder g fuel) o.childIds (i :: vis) with
            | (l, visF) => (i :: l, visF)

/-- `hasattr(obj_i, 'Modules')` over the widget graph. -/
def hasModulesAttr (g : List Obj) (i : Nat) : Bool :=
  (g[i]?.bind (fun o => o.modules)).isSome

/-- The `Modules` mapping of object `i`, defaulting to empty (only used
at indices where `hasModulesAttr` holds). -/
def getModulesD (g : List Obj) (i : Nat) : ModulesDict :=
  (g[i]?.bind (fun o => o.modules)).getD []

/-- Fuel that the termination theorem proves sufficient for `searchFM`:
one more than the graph size. -/
def stdFuel (g : List Obj) : Nat := g.length + 1

/-- `ColumnPlugin._find_modules_dict` (plugin.py lines 92-137): try the
window object itself, then its `ui` attribute, then the recursive search.
Called with Python `None` (no window found anywhere), the attribute
probes fail and the recursive search raises `AttributeError` at
`None.children()` (line 129); nothing catches it. -/
def findModulesDict (h : Host) (w : Option Nat) :
    Except PyErr (Option (Nat × ModulesDict)) :=
  match w with
  | none => Except.error PyErr.attributeError
  | some i =>
      match getModulesOf h i with
      | some d => Except.ok (some (i, d))
      | none =>
          match uiOf h i with
          | some u =>
              match getModulesOf h u with
              | some d => Except.ok (some (u, d))
              | none => Except.ok (searchFM h.objs (stdFuel h.objs) i []).fst
          | none => Except.ok (searchFM h.objs (stdFuel h.objs) i []).fst

/-- The per-widget test of `find_main_window`'s first loop (plugin.py
lines 65-81): prefer a widget exposing `Modules`, else its `ui` object
when that exposes `Modules`; the final `myStackedWidget` branch re-tests
`hasattr(widget, 'Modules')`, which is already known false there, so it
can never fire (kept to mirror the source). -/
def checkTopWidget (h : Host) (i : Nat) : Option Nat :=
  match h.obj? i with
  | none => none
  | some o =>
      if o.modules.isSome then some i
      else
        match o.ui with
        | some u =>
            if (getModulesOf h u).isSome then some u
            else if (stackOf h u).isSome && o.modules.isSome then some i
            else none
        | none => none

/-- `ColumnPlugin.find_main_window` (plugin.py lines 58-90): first loop
over the top-level widgets with the attribute heuristics, second loop
matching the class name `OsdagMainWindow`, else `None`. -/
def findMainWindow (h : Host) : Option Nat :=
  match h.topLevel.findSome? (checkTopWidget h) with
  | some w => some w
  | none =>
      h.topLevel.find? (fun i => decide (classNameOf h i = "OsdagMainWindow"))

/-- The window-resolution prologue shared by `register` (lines 146-150)
and `deactivate` (lines 353-355): the found window, else the `main_win`
attribute (possibly `None`). -/
def resolveWindow (h : Host) : Option Nat :=
  match findMainWindow h with
  | some w => some w
  | none => h.mainWin

/-- The page loop of `_update_live_ui` (plugin.py lines 233-308) on the
tracked page state: on the first page holding a `Strut_Design` radio
button, remove a pre-existing `Column_Design` widget (only when its
parent and the page's `gridLayout` exist), then, when the `gridLayout`
exists, add the freshly constructed column widget and stop.  Pages after
a successful rebuild are untouched.  Layout coordinates, button groups
and widget construction internals are Qt state outside the model; the
construction try/except (lines 264-297) catches any failure there. -/
def patchPages : List Pg → List Pg × Bool
  | [] => ([], false)
  | p :: ps =>
      if p.hasStrut then
        let p1 :=
          if p.hasColumnBtn && p.columnParent.isSome && p.uiHasGrid then
            { p with hasColumnBtn := false, columnParent := none }
          else p
        if p1.uiHasGrid then
          ({ p1 with hasColumnBtn := true, columnParent := some 0 } :: ps, true)
        else
          match patchPages ps with
          | (ps', b) => (p1 :: ps', b)
      else
        match patchPages ps with
        | (ps', b) => (p :: ps', b)

/-- `ColumnPlugin._update_live_ui` (plugin.py lines 221-344).  Its whole
body is wrapped in `try/except Exception`, so it never raises.  The
fallback refresh-method loop (lines 313-323) calls optional host methods
that are not part of the model (hosts without them make it a no-op), and
it never touches the registry. -/
def updateLiveUi (h : Host) (w : Option Nat) : Host :=
  match w with
  | none => h
  | some wi =>
      match uiOf h wi with
      | none => h
      | some u =>
          match stackOf h u with
          | none => h
          | some pages => setObjStack h u (patchPages pages).fst

/-- The widget-removal step of `deactivate` (plugin.py lines 393-410) on
one page: only on a page with a `Strut_Design` button, and only when a
`Column_Design` button is found, its parent exists and the page's
`gridLayout` exists, is the column widget removed; otherwise the page is
left as it is.  Every lookup involved returns `None` rather than raising
when nothing matches. -/
def removeColumnFromPage (p : Pg) : Pg :=
  if p.hasStrut then
    if p.hasColumnBtn then
      if p.columnParent.isSome then
        if p.uiHasGrid then { p with hasColumnBtn := false, columnParent := none }
        else p
      else p
    else p
  else p

/-- The UI part of `deactivate` (plugin.py lines 384-410): when the
resolved window has a `ui` with a `myStackedWidget`, apply the removal
step to every page. -/
def deactivateUiPass (h : Host) (w : Option Nat) : Host :=
  match w with
  | none => h
  | some wi =>
      match uiOf h wi with
      | none => h
      | some u =>
          match stackOf h u with
          | none => h
          | some pages => setObjStack h u (pages.map removeColumnFromPage)

/-- Outcome of one plugin call: final host state, the exception that
escaped to the caller (if any), and the error messages printed. -/
structure Run where
  host : Host
  exn : Option PyErr
  errLog : List LogMsg
deriving Repr, DecidableEq

/-- The body of `register` from `'Compression Member' in modules_dict`
onward (plugin.py lines 169-219), given the window reference `rw`, the
index `mi` of the object holding `Modules`, and the mapping `md`:
check the key, check `isinstance(..., list)`, evaluate
`callable(compression_module[-1])` (an `IndexError` escapes on an empty
list), insert the descriptor at index 0, then read
`real_main_window.show_compression_module` (line 192, unguarded: an
`AttributeError` escapes after the insert when the attribute is absent),
attempt the live UI patch, and return.  The `ColumnDesign` import
attempt (lines 196-201) is guarded and has no effect on this state. -/
def registerWithDict (h : Host) (rw : Option Nat) (mi : Nat) (md : ModulesDict) : Run :=
  match dictLookup md cmKey with
  | none => { host := h, exn := none, errLog := [LogMsg.cmNotFound] }
  | some (ModValue.vlist es) =>
      match es.getLast? with
      | none => { host := h, exn := some PyErr.indexError, errLog := [] }
      | some lastE =>
          if lastE.isCallable then
            let md' := dictUpdate md cmKey (ModValue.vlist (columnEntry :: es))
            let h2 := setModulesAt h mi md'
            if hostHasShow h2 rw then
              { host := updateLiveUi h2 rw, exn := none, errLog := [] }
            else
              { host := h2, exn := some PyErr.attributeError, errLog := [] }
          else { host := h, exn := none, errLog := [LogMsg.cmNoHandler] }
  | some _ => { host := h, exn := none, errLog := [LogMsg.cmNotAList] }

/-- `ColumnPlugin.register` (plugin.py lines 139-219): resolve the window
(falling back to `main_win`), store it in `main_win`, locate the
`Modules` mapping (`if not modules_dict` treats both a failed lookup and
an empty mapping as failure), then run the registration body. -/
def register (h : Host) : Run :=
  let rw := resolveWindow h
  let h1 : Host := { h with mainWin := rw }
  match findModulesDict h1 rw with
  | Except.error e => { host := h1, exn := some e, errLog := [] }
  | Except.ok none => { host := h1, exn := none, errLog := [LogMsg.noModulesDict] }
  | Except.ok (some (mi, md)) =>
      if md.isEmpty then { host := h1, exn := none, errLog := [LogMsg.noModulesDict] }
      else registerWithDict h1 rw mi md

/-- The body of `deactivate` from `'Compression Member' in modules_dict`
onward (plugin.py lines 369-414): check the key, check
`isinstance(..., list)`, pop the first matching descriptor (no pop when
nothing matches), then run the widget-removal pass. -/
def deactivateWithDict (h : Host) (rw : Option Nat) (mi : Nat) (md : ModulesDict) : Run :=
  match dictLookup md cmKey with
  | none => { host := h, exn := none, errLog := [LogMsg.cmNotFound] }
  | some (ModValue.vlist es) =>
      let md' := dictUpdate md cmKey (ModValue.vlist (removeFirstColumn es))
      let h1 := setModulesAt h mi md'
      { host := deactivateUiPass h1 rw, exn := none, errLog := [] }
  | some _ => { host := h, exn := none, errLog := [LogMsg.cmNotAList] }

/-- `ColumnPlugin.deactivate` (plugin.py lines 346-416): resolve the
window (without storing it), close an open column module window (a
widget-only effect, guarded by `hasattr` checks), locate the `Modules`
mapping, then run the deactivation body. -/
def deactivate (h : Host) : Run :=
  let rw := resolveWindow h
  match findModulesDict h rw with
  | Except.error e => { host := h, exn := some e, errLog := [] }
  | Except.ok none => { host := h, exn := none, errLog := [LogMsg.noModulesDict] }
  | Except.ok (some (mi, md)) =>
      if md.isEmpty then { host := h, exn := none, errLog := [LogMsg.noModulesDict] }
      else deactivateWithDict h rw mi md

/-- A host window object exposing `Modules` directly, with
`show_compression_module` present, no `ui` attribute and no children:
the simplest window shape `register`'s success path accepts. -/
def baseObj (reg : ModulesDict) : Obj :=
  { modules := some reg, ui := none, uiStack := none,
    className := "OsdagMainWindow", hasShowCompression := true,
    childIds := [] }

/-- A host whose single top-level widget is `baseObj reg`: the canonical
host family quantified over in the registry properties. -/
def mkHost (reg : ModulesDict) : Host :=
  { objs := [baseObj reg], topLevel := [0], mainWin := none }

/-- A `ui` object holding the stacked widget with the given pages. -/
def uiObj (pages : List Pg) : Obj :=
  { modules := none, ui := none, uiStack := some pages,
    className := "Ui_MainWindow", hasShowCompression := false,
    childIds := [] }

/-- A host whose window (object 0) exposes `Modules` and a `ui` attribute
pointing at object 1, which holds the stacked widget pages: the host
family used for the widget-removal properties. -/
def mkHostUi (reg : ModulesDict) (pages : List Pg) : Host :=
  { objs := [{ baseObj reg with ui := some 1 }, uiObj pages],
    topLevel := [0], mainWin := none }

/-- A host with no top-level widgets and an unset `main_win`: the state
in which no main window can be resolved. -/
def emptyHost : Host := { objs := [], topLevel := [], mainWin := none }

/-- Sample descriptor for the pre-existing strut module. -/
def sampleStrut : Entry := Entry.tup ["Strut", "strut.png", "Strut_Design"]

/-- Sample well-formed category list: one descriptor plus the handler. -/
def sampleList : List Entry := [sampleStrut, Entry.call 0]

/-- Sample registry holding the sample list under `'Compression Member'`. -/
def sampleReg : ModulesDict := [(cmKey, ModValue.vlist sampleList)]

/-- Sample registry whose category list has a non-callable last element. -/
def sampleRegNoHandler : ModulesDict :=
  [(cmKey, ModValue.vlist [sampleStrut, Entry.other 7])]

/-- Sample registry without the `'Compression Member'` key. -/
def sampleRegOther : ModulesDict := [("Beam", ModValue.vcall 3)]

/-- Observer for the `mkHost`/`mkHostUi` families: the
`'Compression Member'` list stored in the registry of object 0. -/
def hostCMList (h : Host) : Option (List Entry) :=
  match getModulesOf h 0 with
  | some d =>
      match dictLookup d cmKey with
      | some (ModValue.vlist es) => some es
      | _ => none
  | none => none

/-- The number of graph nodes not yet in the visited set: the measure
that makes the Python search terminate (each recursive level either
returns at once or moves one more node into the visited set). -/
def unvis (g : List Obj) (vis : List Nat) : Nat :=
  (List.range g.length).countP (fun j => decide (j ∉ vis))

/-- The search agrees with the depth-first order at fuel `f`: on a miss
both traversals leave the same visited set and nothing visited exposes
`Modules`; on a hit the depth-first order splits around the hit node,
with everything before it lacking `Modules`. -/
def SearchMatchesDfs (g : List Obj) (f : Nat) : Prop :=
  ∀ i vis,
    ((searchFM g f i vis).fst = none →
      (dfsOrder g f i vis).snd = (searchFM g f i vis).snd ∧
      ∀ j ∈ (dfsOrder g f i vis).fst, hasModulesAttr g j = false)
    ∧ (∀ m d, (searchFM g f i vis).fst = some (m, d) →
      ∃ p q, (dfsOrder g f i vis).fst = p ++ m :: q ∧
        (∀ j ∈ p, hasModulesAttr g j = false) ∧
        hasModulesAttr g m = true ∧ getModulesD g m = d)

/-- `SearchMatchesDfs`, for the children loop. -/
def GoMatchesDfs (g : List Obj) (f : Nat) : Prop :=
  ∀ cs vis,
    ((goChildren (searchFM g f) cs vis).fst = none →
      (dfsGo (dfsOrder g f) cs vis).snd = (goChildren (searchFM g f) cs vis).snd ∧
      ∀ j ∈ (dfsGo (dfsOrder g f) cs vis).fst, hasModulesAttr g j = false)
    ∧ (∀ m d, (goChildren (searchFM g f) cs vis).fst = some (m, d) →
      ∃ p q, (dfsGo (dfsOrder g f) cs vis).fst = p ++ m :: q ∧
        (∀ j ∈ p, hasModulesAttr g j = false) ∧
        hasModulesAttr g m = true ∧ getModulesD g m = d)

/-- A widget graph whose child relation has a cycle (0 → 1 → 0) before
reaching the node exposing `Modules` (1 → 2): exercises the
cycle-guarded termination of `search_for_modules`. -/
def cyclicGraph : List Obj :=
  [ { modules := none, ui := none, uiStack := none, className := "A",
      hasShowCompression := false, childIds := [1] },
    { modules := none, ui := none, uiStack := none, className := "B",
      hasShowCompression := false, childIds := [0, 2] },
    { modules := some sampleReg, ui := none, uiStack := none, className := "C",
      hasShowCompression := false, childIds := [] } ]

theorem isEmpty_false_of_lookup {d : ModulesDict} {k : String} {v : ModValue}
    (hl : dictLookup d k = some v) : d.isEmpty = false := by
  cases d with
  | nil => simp [dictLookup] at hl
  | cons p rest => rfl

theorem dictLookup_update_self {d : ModulesDict} {k : String} {v : ModValue}
    (hl : dictLookup d k = some v) (nv : ModValue) :
    dictLookup (dictUpdate d k nv) k = some nv := by
  induction d with
  | nil => simp [dictLookup] at hl
  | cons p rest ih =>
      obtain ⟨k', v'⟩ := p
      by_cases hk : k' = k
      · simp [dictUpdate, dictLookup, hk]
      · simp only [dictUpdate, dictLookup, if_neg hk] at hl ⊢
        exact ih hl

theorem lastCallable_spec {es : List Entry} (h : lastCallable es = true) :
    ∃ c, es.getLast? = some c ∧ c.isCallable = true := by
  unfold lastCallable at h
  cases hl : es.getLast? with
  | none => rw [hl] at h; cases h
  | some c => rw [hl] at h; exact ⟨c, rfl, h⟩

theorem lastCallable_of_wellFormed {es : List Entry} (h : wellFormedCM es = true) :
    lastCallable es = true := by
  unfold wellFormedCM at h
  unfold lastCallable
  cases hl : es.getLast? with
  | none => rw [hl] at h; cases h
  | some c =>
      rw [hl] at h
      exact (Bool.and_eq_true_iff.mp h).2

theorem ne_nil_of_lastCallable {es : List Entry} (h : lastCallable es = true) :
    es ≠ [] := by
  intro hn; subst hn; cases h

theorem lastCallable_cons_of_ne_nil {e : Entry} {es : List Entry} (h : es ≠ []) :
    lastCallable (e :: es) = lastCallable es := by
  cases es with
  | nil => exact absurd rfl h
  | cons b l => unfold lastCallable; rw [List.getLast?_cons_cons]

theorem not_callable_of_isColumnDescriptor {e : Entry}
    (h : isColumnDescriptor e = true) : e.isCallable = false := by
  cases e with
  | tup fs => rfl
  | call t => cases h
  | other t => cases h

theorem lastCallable_removeFirstColumn {es : List Entry}
    (h : lastCallable es = true) : lastCallable (removeFirstColumn es) = true := by
  induction es with
  | nil => cases h
  | cons e rest ih =>
      by_cases hc : isColumnDescriptor e = true
      · rw [removeFirstColumn, if_pos hc]
        cases rest with
        | nil =>
            exfalso
            unfold lastCallable at h
            simp only [List.getLast?_singleton] at h
            rw [not_callable_of_isColumnDescriptor hc] at h
            cases h
        | cons b l =>
            rw [lastCallable_cons_of_ne_nil (by simp)] at h
            exact h
      · rw [removeFirstColumn, if_neg hc]
        cases rest with
        | nil => exact h
        | cons b l =>
            rw [lastCallable_cons_of_ne_nil (by simp)] at h
            have h2 := ih h
            rw [lastCallable_cons_of_ne_nil (ne_nil_of_lastCallable h2)]
            exact h2

theorem register_mkHost_success (reg : ModulesDict) (mw : Option Nat)
    (es : List Entry) (c : Entry)
    (hlook : dictLookup reg cmKey = some (ModValue.vlist es))
    (hlast : es.getLast? = some c) (hc : c.isCallable = true) :
    register { mkHost reg with mainWin := mw } =
      { host := { mkHost (dictUpdate reg cmKey
                    (ModValue.vlist (columnEntry :: es))) with mainWin := some 0 },
        exn := none, errLog := [] } := by
  have h0 : register { mkHost reg with mainWin := mw }
      = if reg.isEmpty then
          { host := { mkHost reg with mainWin := some 0 }, exn := none,
            errLog := [LogMsg.noModulesDict] }
        else registerWithDict { mkHost reg with mainWin := some 0 } (some 0) 0 reg := rfl
  rw [h0, isEmpty_false_of_lookup hlook]
  simp only [Bool.false_eq_true, if_false, registerWithDict, hlook, hlast, hc, if_true]
  rfl

theorem deactivate_mkHost_list (reg : ModulesDict) (mw : Option Nat)
    (es : List Entry)
    (hlook : dictLookup reg cmKey = some (ModValue.vlist es)) :
    deactivate { mkHost reg with mainWin := mw } =
      { host := { mkHost (dictUpdate reg cmKey
                    (ModValue.vlist (removeFirstColumn es))) with mainWin := mw },
        exn := none, errLog := [] } := by
  have h0 : deactivate { mkHost reg with mainWin := mw }
      = if reg.isEmpty then
          { host := { mkHost reg with mainWin := mw }, exn := none,
            errLog := [LogMsg.noModulesDict] }
        else deactivateWithDict { mkHost reg with mainWin := mw } (some 0) 0 reg := rfl
  rw [h0, isEmpty_false_of_lookup hlook]
  simp only [Bool.false_eq_true, if_false, deactivateWithDict, hlook]
  rfl

theorem hostCMList_mkHost (reg : ModulesDict) (mw : Option Nat) :
    hostCMList { mkHost reg with mainWin := mw } =
      match dictLookup reg cmKey with
      | some (ModValue.vlist es) => some es
      | _ => none := rfl

theorem getLast?_cons_of_ne_nil {e : Entry} {es : List Entry} (h : es ≠ []) :
    (e :: es).getLast? = es.getLast? := by
  cases es with
  | nil => exact absurd rfl h
  | cons b l => exact List.getLast?_cons_cons ..

theorem isColumnDescriptor_columnEntry : isColumnDescriptor columnEntry = true := by
  decide

theorem removeFirstColumn_cons_column {es : List Entry} :
    removeFirstColumn (columnEntry :: es) = es := by
  rw [removeFirstColumn, if_pos isColumnDescriptor_columnEntry]

/-- C1: for every registry whose `'Compression Member'` entry is a
well-formed list (descriptor tuples followed by a trailing callable),
`register()` followed by `deactivate()` raises nothing and returns the
`'Compression Member'` list to exactly its original contents. -/
theorem c1_register_deactivate_roundtrip (reg : ModulesDict) (es : List Entry)
    (hlook : dictLookup reg cmKey = some (ModValue.vlist es))
    (hwf : wellFormedCM es = true) :
    (register (mkHost reg)).exn = none ∧
    (deactivate (register (mkHost reg)).host).exn = none ∧
    hostCMList (deactivate (register (mkHost reg)).host).host = some es := by
  obtain ⟨c, hlast, hc⟩ := lastCallable_spec (lastCallable_of_wellFormed hwf)
  have hreg : register (mkHost reg) =
      { host := { mkHost (dictUpdate reg cmKey
                    (ModValue.vlist (columnEntry :: es))) with mainWin := some 0 },
        exn := none, errLog := [] } :=
    register_mkHost_success reg none es c hlook hlast hc
  have hlook1 : dictLookup (dictUpdate reg cmKey
      (ModValue.vlist (columnEntry :: es))) cmKey
      = some (ModValue.vlist (columnEntry :: es)) :=
    dictLookup_update_self hlook _
  have hdea := deactivate_mkHost_list
    (dictUpdate reg cmKey (ModValue.vlist (columnEntry :: es))) (some 0)
    (columnEntry :: es) hlook1
  rw [hreg]
  refine ⟨rfl, ?_, ?_⟩
  · rw [hdea]
  · rw [hdea]
    rw [removeFirstColumn_cons_column] at hdea ⊢
    rw [hostCMList_mkHost, dictLookup_update_self hlook1 _]

/-- Witness for C1 at a concrete registry. -/
theorem c1_witness :
    dictLookup sampleReg cmKey = some (ModValue.vlist sampleList) ∧
    wellFormedCM sampleList = true ∧
    hostCMList (deactivate (register (mkHost sampleReg)).host).host
      = some sampleList :=
  ⟨rfl, by decide,
   (c1_register_deactivate_roundtrip sampleReg sampleList rfl (by decide)).2.2⟩

/-- C3: `register()` performs no already-present check: a second call on a
registry with a well-formed `'Compression Member'` list leaves the
`'Column_Design'` descriptor present twice (it is not idempotent). -/
theorem c3_register_twice_duplicates (reg : ModulesDict) (es : List Entry)
    (hlook : dictLookup reg cmKey = some (ModValue.vlist es))
    (hwf : wellFormedCM es = true) :
    hostCMList (register (register (mkHost reg)).host).host
      = some (columnEntry :: columnEntry :: es) ∧
    2 ≤ (columnEntry :: columnEntry :: es).count columnEntry := by
  obtain ⟨c, hlast, hc⟩ := lastCallable_spec (lastCallable_of_wellFormed hwf)
  have hne : es ≠ [] := by
    intro hn; subst hn; cases hlast
  have hreg : register (mkHost reg) =
      { host := { mkHost (dictUpdate reg cmKey
                    (ModValue.vlist (columnEntry :: es))) with mainWin := some 0 },
        exn := none, errLog := [] } :=
    register_mkHost_success reg none es c hlook hlast hc
  have hlook1 : dictLookup (dictUpdate reg cmKey
      (ModValue.vlist (columnEntry :: es))) cmKey
      = some (ModValue.vlist (columnEntry :: es)) :=
    dictLookup_update_self hlook _
  have hlast1 : (columnEntry :: es).getLast? = some c := by
    rw [getLast?_cons_of_ne_nil hne]; exact hlast
  have hreg2 := register_mkHost_success
    (dictUpdate reg cmKey (ModValue.vlist (columnEntry :: es))) (some 0)
    (columnEntry :: es) c hlook1 hlast1 hc
  constructor
  · rw [hreg, hreg2, hostCMList_mkHost, dictLookup_update_self hlook1 _]
  · rw [List.count_cons_self, List.count_cons_self]
    omega

/-- Witness for C3 at a concrete registry. -/
theorem c3_witness :
    hostCMList (register (register (mkHost sampleReg)).host).host
      = some (columnEntry :: columnEntry :: sampleList) :=
  (c3_register_twice_duplicates sampleReg sampleList rfl (by decide)).1

/-- C4 as stated is false: `register()` does not append the descriptor to
the end of the `'Compression Member'` list; on the sample registry the
descriptor ends up at the head and the result differs from the
appended-at-the-end list. -/
theorem c4_counterexample :
    hostCMList (register (mkHost sampleReg)).host
      = some (columnEntry :: sampleList) ∧
    hostCMList (register (mkHost sampleReg)).host
      ≠ some (sampleList ++ [columnEntry]) := by
  constructor
  · rfl
  · decide

/-- C4 amended: on success (`'Compression Member'` key present, mapping to
a list whose last element is callable), `register()` inserts the
descriptor `('Axially Loaded Column', image_path, 'Column_Design')` at
index 0 of the list, in front of the existing entries. -/
theorem c4_amended_register_prepends (reg : ModulesDict) (es : List Entry)
    (hlook : dictLookup reg cmKey = some (ModValue.vlist es))
    (hlc : lastCallable es = true) :
    hostCMList (register (mkHost reg)).host = some (columnEntry :: es) := by
  obtain ⟨c, hlast, hc⟩ := lastCallable_spec hlc
  have hreg : register (mkHost reg) =
      { host := { mkHost (dictUpdate reg cmKey
                    (ModValue.vlist (columnEntry :: es))) with mainWin := some 0 },
        exn := none, errLog := [] } :=
    register_mkHost_success reg none es c hlook hlast hc
  rw [hreg, hostCMList_mkHost, dictLookup_update_self hlook _]

/-- Witness for the amended C4 at a concrete registry. -/
theorem c4_witness :
    dictLookup sampleReg cmKey = some (ModValue.vlist sampleList) ∧
    lastCallable sampleList = true ∧
    hostCMList (register (mkHost sampleReg)).host
      = some (columnEntry :: sampleList) :=
  ⟨rfl, by decide, c4_amended_register_prepends sampleReg sampleList rfl (by decide)⟩

theorem removeFirstColumn_append {ds : List Entry} {e : Entry} {es' : List Entry}
    (hds : ∀ d ∈ ds, isColumnDescriptor d = false)
    (he : isColumnDescriptor e = true) :
    removeFirstColumn (ds ++ e :: es') = ds ++ es' := by
  induction ds with
  | nil => simp [removeFirstColumn, he]
  | cons d ds ih =>
      have hd : isColumnDescriptor d = false := hds d (by simp)
      have hrest : ∀ x ∈ ds, isColumnDescriptor x = false :=
        fun x hx => hds x (by simp [hx])
      simp only [List.cons_append, removeFirstColumn, hd,
        Bool.false_eq_true, if_false]
      exact congrArg (List.cons d) (ih hrest)

theorem removeFirstColumn_no_match {es : List Entry}
    (h : ∀ e ∈ es, isColumnDescriptor e = false) :
    removeFirstColumn es = es := by
  induction es with
  | nil => rfl
  | cons e rest ih =>
      have he : isColumnDescriptor e = false := h e (by simp)
      have hrest : ∀ x ∈ rest, isColumnDescriptor x = false :=
        fun x hx => h x (by simp [hx])
      simp only [removeFirstColumn, he, Bool.false_eq_true, if_false]
      rw [ih hrest]

theorem isColumnDescriptor_any_names (a b : String) :
    isColumnDescriptor (Entry.tup [a, b, "Column_Design"]) = true := by
  simp [isColumnDescriptor]

theorem isColumnDescriptor_spec {e : Entry} (h : isColumnDescriptor e = true) :
    ∃ fs, e = Entry.tup fs ∧ 3 ≤ fs.length ∧ fs[2]? = some "Column_Design" := by
  cases e with
  | tup fs =>
      simp only [isColumnDescriptor, Bool.and_eq_true, decide_eq_true_eq] at h
      exact ⟨fs, rfl, h.1, h.2⟩
  | call t => cases h
  | other t => cases h

/-- C5: `deactivate()` removes from the `'Compression Member'` list
exactly the first element that is a tuple of length at least 3 whose
third field is `'Column_Design'`; the match looks only at the identifier
field (any display name and image path match, and no non-tuple or
differently-identified entry does), and all other elements stay in
place. -/
theorem c5_deactivate_removes_first_match (reg : ModulesDict) (es : List Entry)
    (hlook : dictLookup reg cmKey = some (ModValue.vlist es)) :
    hostCMList (deactivate (mkHost reg)).host = some (removeFirstColumn es)
    ∧ (∀ ds e es', es = ds ++ e :: es' →
        (∀ d ∈ ds, isColumnDescriptor d = false) →
        isColumnDescriptor e = true → removeFirstColumn es = ds ++ es')
    ∧ ((∀ e ∈ es, isColumnDescriptor e = false) → removeFirstColumn es = es)
    ∧ (∀ a b : String, isColumnDescriptor (Entry.tup [a, b, "Column_Design"]) = true)
    ∧ (∀ e : Entry, isColumnDescriptor e = true →
        ∃ fs, e = Entry.tup fs ∧ 3 ≤ fs.length ∧ fs[2]? = some "Column_Design") := by
  refine ⟨?_, ?_, removeFirstColumn_no_match, isColumnDescriptor_any_names,
    fun e he => isColumnDescriptor_spec he⟩
  · have hdea := deactivate_mkHost_list reg none es hlook
    have hdea' : deactivate (mkHost reg) =
        { host := { mkHost (dictUpdate reg cmKey
                      (ModValue.vlist (removeFirstColumn es))) with mainWin := none },
          exn := none, errLog := [] } := hdea
    rw [hdea', hostCMList_mkHost, dictLookup_update_self hlook _]
  · intro ds e es' heq hds he
    subst heq
    exact removeFirstColumn_append hds he

/-- Witness for C5 at a concrete registry whose list holds a column
descriptor in front of a strut descriptor and the handler. -/
theorem c5_witness :
    hostCMList (deactivate (mkHost
        [(cmKey, ModValue.vlist [columnEntry, sampleStrut, Entry.call 0])])).host
      = some [sampleStrut, Entry.call 0] :=
  (c5_deactivate_removes_first_match
      [(cmKey, ModValue.vlist [columnEntry, sampleStrut, Entry.call 0])]
      [columnEntry, sampleStrut, Entry.call 0] rfl).1.trans (by decide)

/-- C6: on every registry in which `'Compression Member'` is not a key,
`deactivate()` prints an error, raises nothing, and leaves the host
(including every key and value of the registry) unchanged. -/
theorem c6_deactivate_missing_key_no_mutation (reg : ModulesDict)
    (h : dictLookup reg cmKey = none) :
    (deactivate (mkHost reg)).host = mkHost reg ∧
    (deactivate (mkHost reg)).exn = none ∧
    (deactivate (mkHost reg)).errLog ≠ [] := by
  have h0 : deactivate (mkHost reg)
      = if reg.isEmpty then
          { host := mkHost reg, exn := none, errLog := [LogMsg.noModulesDict] }
        else deactivateWithDict (mkHost reg) (some 0) 0 reg := rfl
  rw [h0]
  cases hE : reg.isEmpty with
  | true => simp
  | false =>
      simp only [Bool.false_eq_true, if_false, deactivateWithDict, h]
      simp

/-- Witness for C6 at a concrete registry without the key. -/
theorem c6_witness :
    dictLookup sampleRegOther cmKey = none ∧
    (deactivate (mkHost sampleRegOther)).host = mkHost sampleRegOther :=
  ⟨rfl, (c6_deactivate_missing_key_no_mutation sampleRegOther rfl).1⟩

/-- C7 as stated is false: `register()` does check the trailing element.
On a registry whose `'Compression Member'` list ends in a non-callable,
`register()` leaves the list (and the whole host, apart from storing
`main_win`) unchanged and prints the missing-handler error. -/
theorem c7_counterexample :
    hostCMList (register (mkHost sampleRegNoHandler)).host
      = some [sampleStrut, Entry.other 7] ∧
    (register (mkHost sampleRegNoHandler)).host
      = { mkHost sampleRegNoHandler with mainWin := some 0 } ∧
    (register (mkHost sampleRegNoHandler)).errLog = [LogMsg.cmNoHandler] := by
  refine ⟨rfl, rfl, rfl⟩

/-- C7 amended: `register()` does verify the trailing-callable invariant
(`callable(compression_module[-1])`, plugin.py line 175): whenever the
last element of the `'Compression Member'` list is not callable it
mutates nothing, raises nothing, and prints the missing-handler error. -/
theorem c7_amended_register_checks_callable (reg : ModulesDict)
    (es : List Entry) (lastE : Entry)
    (hlook : dictLookup reg cmKey = some (ModValue.vlist es))
    (hlast : es.getLast? = some lastE) (hnc : lastE.isCallable = false) :
    (register (mkHost reg)).host = { mkHost reg with mainWin := some 0 } ∧
    (register (mkHost reg)).exn = none ∧
    (register (mkHost reg)).errLog = [LogMsg.cmNoHandler] := by
  have h0 : register (mkHost reg)
      = if reg.isEmpty then
          { host := { mkHost reg with mainWin := some 0 }, exn := none,
            errLog := [LogMsg.noModulesDict] }
        else registerWithDict { mkHost reg with mainWin := some 0 } (some 0) 0 reg := rfl
  rw [h0, isEmpty_false_of_lookup hlook]
  simp only [Bool.false_eq_true, if_false, registerWithDict, hlook, hlast, hnc]
  simp

/-- Witness for the amended C7 at a concrete registry. -/
theorem c7_witness :
    dictLookup sampleRegNoHandler cmKey
      = some (ModValue.vlist [sampleStrut, Entry.other 7]) ∧
    (Entry.other 7).isCallable = false ∧
    (register (mkHost sampleRegNoHandler)).host
      = { mkHost sampleRegNoHandler with mainWin := some 0 } :=
  ⟨rfl, rfl,
   (c7_amended_register_checks_callable sampleRegNoHandler
      [sampleStrut, Entry.other 7] (Entry.other 7) rfl rfl rfl).1⟩

/-- C10: both operations preserve the trailing-callable invariant:
when the `'Compression Member'` list ends in a callable, `register()`
produces `columnEntry :: es` (insertion at index 0 keeps the callable
last) and `deactivate()` produces `removeFirstColumn es` (only tuple
descriptors are removed, never the trailing callable), and both results
still end in a callable. -/
theorem c10_trailing_callable_preserved (reg : ModulesDict) (es : List Entry)
    (hlook : dictLookup reg cmKey = some (ModValue.vlist es))
    (hlc : lastCallable es = true) :
    (hostCMList (register (mkHost reg)).host = some (columnEntry :: es) ∧
      lastCallable (columnEntry :: es) = true) ∧
    (hostCMList (deactivate (mkHost reg)).host = some (removeFirstColumn es) ∧
      lastCallable (removeFirstColumn es) = true) := by
  obtain ⟨c, hlast, hc⟩ := lastCallable_spec hlc
  have hne : es ≠ [] := by intro hn; subst hn; cases hlast
  have hreg : register (mkHost reg) =
      { host := { mkHost (dictUpdate reg cmKey
                    (ModValue.vlist (columnEntry :: es))) with mainWin := some 0 },
        exn := none, errLog := [] } :=
    register_mkHost_success reg none es c hlook hlast hc
  have hdea : deactivate (mkHost reg) =
      { host := { mkHost (dictUpdate reg cmKey
                    (ModValue.vlist (removeFirstColumn es))) with mainWin := none },
        exn := none, errLog := [] } :=
    deactivate_mkHost_list reg none es hlook
  refine ⟨⟨?_, ?_⟩, ?_, lastCallable_removeFirstColumn hlc⟩
  · rw [hreg, hostCMList_mkHost, dictLookup_update_self hlook _]
  · rw [lastCallable_cons_of_ne_nil hne]; exact hlc
  · rw [hdea, hostCMList_mkHost, dictLookup_update_self hlook _]

/-- Witness for C10 at a concrete registry. -/
theorem c10_witness :
    lastCallable sampleList = true ∧
    hostCMList (register (mkHost sampleReg)).host
      = some (columnEntry :: sampleList) ∧
    lastCallable (removeFirstColumn sampleList) = true :=
  ⟨by decide,
   (c10_trailing_callable_preserved sampleReg sampleList rfl (by decide)).1.1,
   (c10_trailing_callable_preserved sampleReg sampleList rfl (by decide)).2.2⟩

theorem deactivate_mkHostUi (reg : ModulesDict) (pages : List Pg)
    (es : List Entry)
    (hlook : dictLookup reg cmKey = some (ModValue.vlist es)) :
    deactivate (mkHostUi reg pages) =
      { host := mkHostUi
          (dictUpdate reg cmKey (ModValue.vlist (removeFirstColumn es)))
          (pages.map removeColumnFromPage),
        exn := none, errLog := [] } := by
  have h0 : deactivate (mkHostUi reg pages)
      = if reg.isEmpty then
          { host := mkHostUi reg pages, exn := none,
            errLog := [LogMsg.noModulesDict] }
        else deactivateWithDict (mkHostUi reg pages) (some 0) 0 reg := rfl
  rw [h0, isEmpty_false_of_lookup hlook]
  simp only [Bool.false_eq_true, if_false, deactivateWithDict, hlook]
  rfl

theorem removeColumnFromPage_no_btn {p : Pg} (h : p.hasColumnBtn = false) :
    removeColumnFromPage p = p := by
  simp [removeColumnFromPage, h]

/-- C9: `deactivate()`'s widget-removal path never throws, and on every
page of the stacked widget on which no `Column_Design` radio button is
found the removal step is skipped: the page is returned unchanged. -/
theorem c9_removal_skipped_without_button (reg : ModulesDict) (es : List Entry)
    (pages : List Pg)
    (hlook : dictLookup reg cmKey = some (ModValue.vlist es)) :
    (deactivate (mkHostUi reg pages)).exn = none ∧
    stackOf (deactivate (mkHostUi reg pages)).host 1
      = some (pages.map removeColumnFromPage) ∧
    (∀ p ∈ pages, p.hasColumnBtn = false → removeColumnFromPage p = p) := by
  have hdea := deactivate_mkHostUi reg pages es hlook
  refine ⟨?_, ?_, fun p _ hp => removeColumnFromPage_no_btn hp⟩
  · rw [hdea]
  · rw [hdea]; rfl

/-- Witness for C9: two pages, neither holding a `Column_Design` button;
`deactivate` raises nothing and both pages survive unchanged. -/
theorem c9_witness :
    (deactivate (mkHostUi sampleReg
        [⟨true, false, none, true⟩, ⟨false, false, none, false⟩])).exn = none ∧
    stackOf (deactivate (mkHostUi sampleReg
        [⟨true, false, none, true⟩, ⟨false, false, none, false⟩])).host 1
      = some [⟨true, false, none, true⟩, ⟨false, false, none, false⟩] :=
  ⟨(c9_removal_skipped_without_button sampleReg sampleList
      [⟨true, false, none, true⟩, ⟨false, false, none, false⟩] rfl).1,
   ((c9_removal_skipped_without_button sampleReg sampleList
      [⟨true, false, none, true⟩, ⟨false, false, none, false⟩] rfl).2.1).trans
     (by decide)⟩

theorem findModulesDict_some_ok (h : Host) (i : Nat) :
    ∃ r, findModulesDict h (some i) = Except.ok r := by
  cases hm : getModulesOf h i with
  | some d => exact ⟨some (i, d), by simp [findModulesDict, hm]⟩
  | none =>
      cases hu : uiOf h i with
      | none =>
          exact ⟨(searchFM h.objs (stdFuel h.objs) i []).fst,
            by simp [findModulesDict, hm, hu]⟩
      | some u =>
          cases hmu : getModulesOf h u with
          | some d => exact ⟨some (u, d), by simp [findModulesDict, hm, hu, hmu]⟩
          | none =>
              exact ⟨(searchFM h.objs (stdFuel h.objs) i []).fst,
                by simp [findModulesDict, hm, hu, hmu]⟩

theorem deactivateWithDict_exn_none (h : Host) (rw : Option Nat) (mi : Nat)
    (md : ModulesDict) : (deactivateWithDict h rw mi md).exn = none := by
  unfold deactivateWithDict
  cases dictLookup md cmKey with
  | none => rfl
  | some v => cases v <;> rfl

theorem hostHasShow_setModulesAt (h : Host) (mi : Nat) (d : ModulesDict)
    (w : Option Nat) :
    hostHasShow (setModulesAt h mi d) w = hostHasShow h w := by
  cases hm : h.objs[mi]? with
  | none => simp [setModulesAt, hm]
  | some o =>
      cases w with
      | none => simp [hostHasShow]
      | some i =>
          simp only [setModulesAt, hm, hostHasShow, Host.obj?]
          by_cases hi : mi = i
          · subst hi
            have hlt : mi < h.objs.length := (List.getElem?_eq_some.mp hm).1
            rw [List.getElem?_set_self hlt, hm]
          · rw [List.getElem?_set_ne hi]

/-- C2 as stated is false: on the host state with no top-level widgets
and `main_win` unset (`None`), `register()` does not swallow the failure;
the modules search dereferences `None` and an `AttributeError` escapes to
the caller. -/
theorem c2_counterexample :
    emptyHost.mainWin = none ∧
    findMainWindow emptyHost = none ∧
    (register emptyHost).exn = some PyErr.attributeError ∧
    (deactivate emptyHost).exn = some PyErr.attributeError :=
  ⟨rfl, rfl, rfl, rfl⟩

/-- C2 amended: the failure-swallowing holds only once a main window is
resolved.  Whenever a window is found (or `main_win` is set),
`deactivate()` always returns without raising, and `register()` returns
without raising provided the window has the `show_compression_module`
attribute (read unguarded on the success path, plugin.py line 192) and
the `'Compression Member'` value, when it is a list, is non-empty
(`compression_module[-1]` raises `IndexError` on an empty list, line
175).  With no window and `main_win` unset (`None`), both methods raise
`AttributeError` out of the modules search instead of logging. -/
theorem c2_amended_no_raise_with_window (h : Host) (w : Nat)
    (hrw : resolveWindow h = some w) :
    (deactivate h).exn = none ∧
    (hostHasShow h (some w) = true →
      (∀ mi md es, findModulesDict h (some w) = Except.ok (some (mi, md)) →
          dictLookup md cmKey = some (ModValue.vlist es) → es ≠ []) →
      (register h).exn = none) := by
  constructor
  · simp only [deactivate]
    rw [hrw]
    obtain ⟨r, hr⟩ := findModulesDict_some_ok h w
    rw [hr]
    cases r with
    | none => rfl
    | some p =>
        obtain ⟨mi, md⟩ := p
        cases hE : md.isEmpty with
        | true => simp [hE]
        | false => simp [hE, deactivateWithDict_exn_none]
  · intro hshow hnonempty
    simp only [register]
    rw [hrw]
    have hconv : findModulesDict { h with mainWin := some w } (some w)
        = findModulesDict h (some w) := rfl
    rw [hconv]
    obtain ⟨r, hr⟩ := findModulesDict_some_ok h w
    rw [hr]
    cases r with
    | none => rfl
    | some p =>
        obtain ⟨mi, md⟩ := p
        cases hE : md.isEmpty with
        | true => simp [hE]
        | false =>
            simp only [hE, Bool.false_eq_true, if_false]
            cases hL : dictLookup md cmKey with
            | none => simp [registerWithDict, hL]
            | some v =>
                cases v with
                | vlist es =>
                    have hne : es ≠ [] := hnonempty mi md es hr hL
                    obtain ⟨c, hc⟩ := Option.isSome_iff_exists.mp
                      (List.getLast?_isSome.mpr hne)
                    cases hcall : c.isCallable with
                    | false => simp [registerWithDict, hL, hc, hcall]
                    | true =>
                        have hss : hostHasShow
                            (setModulesAt { h with mainWin := some w } mi
                              (dictUpdate md cmKey
                                (ModValue.vlist (columnEntry :: es))))
                            (some w) = true := by
                          rw [hostHasShow_setModulesAt]
                          exact hshow
                        simp [registerWithDict, hL, hc, hcall, hss]
                | vcall t => simp [registerWithDict, hL]
                | vother t => simp [registerWithDict, hL]

/-- Witness for the amended C2 at a concrete host. -/
theorem c2_witness :
    resolveWindow (mkHost sampleReg) = some 0 ∧
    hostHasShow (mkHost sampleReg) (some 0) = true ∧
    (deactivate (mkHost sampleReg)).exn = none ∧
    (register (mkHost sampleReg)).exn = none := by
  have hmain := c2_amended_no_raise_with_window (mkHost sampleReg) 0 rfl
  refine ⟨rfl, rfl, hmain.1, hmain.2 rfl ?_⟩
  intro mi md es h1 h2
  rw [show findModulesDict (mkHost sampleReg) (some 0)
      = Except.ok (some (0, sampleReg)) from rfl] at h1
  injection h1 with h1a
  injection h1a with h1b
  have hmd : md = sampleReg := (congrArg Prod.snd h1b).symm
  subst hmd
  rw [show dictLookup sampleReg cmKey
      = some (ModValue.vlist sampleList) from rfl] at h2
  injection h2 with h2a
  injection h2a with h2b
  rw [← h2b]
  simp [sampleList]

theorem unvis_le_length (g : List Obj) (vis : List Nat) :
    unvis g vis ≤ g.length := by
  have h := List.countP_le_length (p := fun j => decide (j ∉ vis))
      (l := List.range g.length)
  simpa [unvis] using h

theorem unvis_mono {g : List Obj} {vis vis' : List Nat}
    (h : ∀ j, j ∈ vis → j ∈ vis') : unvis g vis' ≤ unvis g vis := by
  apply List.countP_mono_left
  intro a _ ha
  simp only [decide_eq_true_eq] at ha ⊢
  exact fun hav => ha (h a hav)

theorem countP_notMem_cons_lt {i : Nat} {vis : List Nat} :
    ∀ l : List Nat, i ∈ l → i ∉ vis →
      l.countP (fun j => decide (j ∉ i :: vis))
        < l.countP (fun j => decide (j ∉ vis)) := by
  intro l
  induction l with
  | nil => intro h; cases h
  | cons a l ih =>
      intro hil hiv
      rw [List.countP_cons, List.countP_cons]
      by_cases hai : a = i
      · subst hai
        have h1 : (decide (a ∉ a :: vis)) = false := by simp
        have h2 : (decide (a ∉ vis)) = true := by simpa using hiv
        rw [h1, h2]
        have hle : l.countP (fun j => decide (j ∉ a :: vis))
            ≤ l.countP (fun j => decide (j ∉ vis)) := by
          apply List.countP_mono_left
          intro x _ hx
          simp only [decide_eq_true_eq, List.mem_cons, not_or] at hx ⊢
          exact hx.2
        simp only [Bool.false_eq_true, if_false, if_true]
        omega
      · have hil' : i ∈ l := by
          cases hil with
          | head => exact absurd rfl hai
          | tail _ h => exact h
        have heq : (decide (a ∉ i :: vis)) = (decide (a ∉ vis)) := by
          by_cases hav : a ∈ vis
          · simp [hav]
          · simp [hav, List.mem_cons, hai]
        rw [heq]
        have := ih hil' hiv
        omega

theorem unvis_insert_lt {g : List Obj} {vis : List Nat} {i : Nat}
    (hg : i < g.length) (hv : i ∉ vis) : unvis g (i :: vis) < unvis g vis :=
  countP_notMem_cons_lt (List.range g.length) (List.mem_range.mpr hg) hv

theorem goChildren_vis_mono
    (step : Nat → List Nat → Option (Nat × ModulesDict) × List Nat)
    (hstep : ∀ c vis j, j ∈ vis → j ∈ (step c vis).snd) :
    ∀ cs vis j, j ∈ vis → j ∈ (goChildren step cs vis).snd := by
  intro cs
  induction cs with
  | nil => intro vis j hj; exact hj
  | cons c cs ih =>
      intro vis j hj
      simp only [goChildren]
      cases hs : step c vis with
      | mk o v' =>
          have hj' : j ∈ v' := by
            have := hstep c vis j hj
            rw [hs] at this
            exact this
          cases o with
          | some r => exact hj'
          | none => exact ih v' j hj'

theorem searchFM_vis_mono (g : List Obj) :
    ∀ fuel i vis j, j ∈ vis → j ∈ (searchFM g fuel i vis).snd := by
  intro fuel
  induction fuel with
  | zero => intro i vis j hj; exact hj
  | succ fuel ih =>
      intro i vis j hj
      simp only [searchFM]
      by_cases hv : i ∈ vis
      · simp only [hv, if_true]
        exact hj
      · simp only [hv, if_false]
        split
        · exact List.mem_cons_of_mem i hj
        · split
          · exact List.mem_cons_of_mem i hj
          · exact goChildren_vis_mono (searchFM g fuel) ih _ (i :: vis) j
              (List.mem_cons_of_mem i hj)

theorem stepQ_of_stepP (g : List Obj) (f : Nat)
    (hP : ∀ i vis, unvis g vis + 1 ≤ f →
      searchFM g f i vis = searchFM g (f + 1) i vis) :
    ∀ cs vis, unvis g vis + 1 ≤ f →
      goChildren (searchFM g f) cs vis = goChildren (searchFM g (f + 1)) cs vis := by
  intro cs
  induction cs with
  | nil => intro vis _; rfl
  | cons c cs ih =>
      intro vis hb
      simp only [goChildren]
      rw [← hP c vis hb]
      cases hs : searchFM g f c vis with
      | mk o v' =>
          have hsub : ∀ j, j ∈ vis → j ∈ v' := by
            intro j hj
            have := searchFM_vis_mono g f c vis j hj
            rw [hs] at this
            exact this
          cases o with
          | some r => rfl
          | none =>
              exact ih v' (le_trans (Nat.add_le_add_right (unvis_mono hsub) 1) hb)

theorem stepP_succ (g : List Obj) (f : Nat)
    (hQ : ∀ cs vis, unvis g vis + 1 ≤ f →
      goChildren (searchFM g f) cs vis = goChildren (searchFM g (f + 1)) cs vis) :
    ∀ i vis, unvis g vis + 1 ≤ f + 1 →
      searchFM g (f + 1) i vis = searchFM g (f + 1 + 1) i vis := by
  intro i vis hb
  by_cases hv : i ∈ vis
  · simp [searchFM, hv]
  · cases ho : g[i]? with
    | none => simp [searchFM, hv, ho]
    | some o =>
        cases hm : o.modules with
        | some d => simp [searchFM, hv, ho, hm]
        | none =>
            have lhs : searchFM g (f + 1) i vis
                = goChildren (searchFM g f) o.childIds (i :: vis) := by
              simp [searchFM, hv, ho, hm]
            have rhs : searchFM g (f + 1 + 1) i vis
                = goChildren (searchFM g (f + 1)) o.childIds (i :: vis) := by
              simp [searchFM, hv, ho, hm]
            rw [lhs, rhs]
            apply hQ
            have hg : i < g.length := (List.getElem?_eq_some.mp ho).1
            have hlt := unvis_insert_lt hg hv
            omega

theorem searchFM_fuel_step (g : List Obj) :
    ∀ f i vis, unvis g vis + 1 ≤ f →
      searchFM g f i vis = searchFM g (f + 1) i vis := by
  intro f
  induction f with
  | zero => intro i vis hb; omega
  | succ f ih => exact stepP_succ g f (stepQ_of_stepP g f ih)

theorem searchFM_fuel_add (g : List Obj) :
    ∀ k f i vis, unvis g vis + 1 ≤ f →
      searchFM g (f + k) i vis = searchFM g f i vis := by
  intro k
  induction k with
  | zero => intro f i vis _; rfl
  | succ k ih =>
      intro f i vis hb
      have h2 : searchFM g (f + k) i vis = searchFM g (f + k + 1) i vis :=
        searchFM_fuel_step g (f + k) i vis (le_trans hb (by omega))
      calc searchFM g (f + (k + 1)) i vis
          = searchFM g (f + k + 1) i vis := rfl
        _ = searchFM g (f + k) i vis := h2.symm
        _ = searchFM g f i vis := ih f i vis hb

theorem sfd_node_zero (g : List Obj) : SearchMatchesDfs g 0 := by
  intro i vis
  constructor
  · intro _
    refine ⟨rfl, ?_⟩
    intro j hj
    simp [dfsOrder] at hj
  · intro m d h
    simp [searchFM] at h

theorem sfd_go (g : List Obj) (f : Nat) (hn : SearchMatchesDfs g f) :
    GoMatchesDfs g f := by
  intro cs
  induction cs with
  | nil =>
      intro vis
      constructor
      · intro _
        refine ⟨rfl, ?_⟩
        intro j hj
        simp [dfsGo] at hj
      · intro m d h
        simp [goChildren] at h
  | cons c cs ih =>
      intro vis
      cases hs : searchFM g f c vis with
      | mk o v' =>
      cases hd : dfsOrder g f c vis with
      | mk l1 w1 =>
      cases o with
      | some r =>
          cases hdr : dfsGo (dfsOrder g f) cs w1 with
          | mk l2 w2 =>
          have hgo : goChildren (searchFM g f) (c :: cs) vis = (some r, v') := by
            simp [goChildren, hs]
          have hdf : dfsGo (dfsOrder g f) (c :: cs) vis = (l1 ++ l2, w2) := by
            simp [dfsGo, hd, hdr]
          constructor
          · intro h
            rw [hgo] at h
            simp at h
          · intro m d h
            rw [hgo] at h
            have h2 : some r = some (m, d) := h
            obtain ⟨p, q, hdl, hp, hmm, hdd⟩ := (hn c vis).2 m d (by rw [hs]; exact h2)
            rw [hd] at hdl
            have hdl' : l1 = p ++ m :: q := hdl
            refine ⟨p, q ++ l2, ?_, hp, hmm, hdd⟩
            rw [hdf]
            have : (l1 ++ l2 : List Nat) = (p ++ m :: q) ++ l2 := by rw [hdl']
            rw [this]
            simp [List.append_assoc]
      | none =>
          have hrel := (hn c vis).1 (by rw [hs])
          rw [hs, hd] at hrel
          obtain ⟨hw, hl1⟩ := hrel
          have hw' : w1 = v' := hw
          subst hw'
          cases hdr : dfsGo (dfsOrder g f) cs w1 with
          | mk l2 w2 =>
          have hgo : goChildren (searchFM g f) (c :: cs) vis
              = goChildren (searchFM g f) cs w1 := by
            simp [goChildren, hs]
          have hdf : dfsGo (dfsOrder g f) (c :: cs) vis = (l1 ++ l2, w2) := by
            simp [dfsGo, hd, hdr]
          constructor
          · intro h
            rw [hgo] at h
            obtain ⟨hsnd, hall⟩ := (ih w1).1 h
            rw [hdr] at hsnd hall
            refine ⟨?_, ?_⟩
            · rw [hdf, hgo]
              exact hsnd
            · intro j hj
              rw [hdf] at hj
              have hj' : j ∈ l1 ++ l2 := hj
              rcases List.mem_append.mp hj' with h1 | h2
              · exact hl1 j h1
              · exact hall j h2
          · intro m d h
            rw [hgo] at h
            obtain ⟨p, q, hdl, hp, hmm, hdd⟩ := (ih w1).2 m d h
            rw [hdr] at hdl
            have hdl' : l2 = p ++ m :: q := hdl
            refine ⟨l1 ++ p, q, ?_, ?_, hmm, hdd⟩
            · rw [hdf]
              have : (l1 ++ l2 : List Nat) = l1 ++ (p ++ m :: q) := by rw [hdl']
              rw [this]
              simp [List.append_assoc]
            · intro j hj
              rcases List.mem_append.mp hj with h1 | h2
              · exact hl1 j h1
              · exact hp j h2

theorem sfd_node_succ (g : List Obj) (f : Nat) (hQ : GoMatchesDfs g f) :
    SearchMatchesDfs g (f + 1) := by
  intro i vis
  by_cases hv : i ∈ vis
  · have hs : searchFM g (f + 1) i vis = (none, vis) := by simp [searchFM, hv]
    have hd : dfsOrder g (f + 1) i vis = ([], vis) := by simp [dfsOrder, hv]
    constructor
    · intro _
      rw [hd, hs]
      refine ⟨rfl, ?_⟩
      intro j hj
      simp at hj
    · intro m d h
      rw [hs] at h
      simp at h
  · cases ho : g[i]? with
    | none =>
        have hs : searchFM g (f + 1) i vis = (none, i :: vis) := by
          simp [searchFM, hv, ho]
        have hd : dfsOrder g (f + 1) i vis = ([i], i :: vis) := by
          simp [dfsOrder, hv, ho]
        constructor
        · intro _
          rw [hs, hd]
          refine ⟨rfl, ?_⟩
          intro j hj
          have hj' : j = i := by simpa using hj
          subst hj'
          simp [hasModulesAttr, ho]
        · intro m d h
          rw [hs] at h
          simp at h
    | some o =>
        cases hm : o.modules with
        | some d0 =>
            have hs : searchFM g (f + 1) i vis = (some (i, d0), i :: vis) := by
              simp [searchFM, hv, ho, hm]
            cases hdg : dfsGo (dfsOrder g f) o.childIds (i :: vis) with
            | mk l w =>
            have hd : dfsOrder g (f + 1) i vis = (i :: l, w) := by
              simp [dfsOrder, hv, ho, hdg]
            constructor
            · intro h
              rw [hs] at h
              simp at h
            · intro m d h
              rw [hs] at h
              have h2 : some (i, d0) = some (m, d) := h
              injection h2 with h3
              have hm1 : i = m := congrArg Prod.fst h3
              have hd1 : d0 = d := congrArg Prod.snd h3
              subst hm1
              refine ⟨[], l, ?_, ?_, ?_, ?_⟩
              · rw [hd]
                rfl
              · intro j hj
                simp at hj
              · simp [hasModulesAttr, ho, hm]
              · simp [getModulesD, ho, hm, hd1]
        | none =>
            cases hgc : goChildren (searchFM g f) o.childIds (i :: vis) with
            | mk o2 v2 =>
            cases hdg : dfsGo (dfsOrder g f) o.childIds (i :: vis) with
            | mk l2 w2 =>
            have hs : searchFM g (f + 1) i vis = (o2, v2) := by
              simp [searchFM, hv, ho, hm, hgc]
            have hd : dfsOrder g (f + 1) i vis = (i :: l2, w2) := by
              simp [dfsOrder, hv, ho, hdg]
            have hQ' := hQ o.childIds (i :: vis)
            constructor
            · intro h
              rw [hs] at h
              obtain ⟨hsnd, hall⟩ := hQ'.1 (by rw [hgc]; exact h)
              rw [hgc, hdg] at hsnd
              rw [hdg] at hall
              rw [hs, hd]
              refine ⟨hsnd, ?_⟩
              intro j hj
              have hj' : j ∈ i :: l2 := hj
              rcases List.mem_cons.mp hj' with h1 | h2
              · subst h1
                simp [hasModulesAttr, ho, hm]
              · exact hall j h2
            · intro m d h
              rw [hs] at h
              obtain ⟨p, q, hdl, hp, hmm, hdd⟩ := hQ'.2 m d (by rw [hgc]; exact h)
              rw [hdg] at hdl
              have hdl' : l2 = p ++ m :: q := hdl
              refine ⟨i :: p, q, ?_, ?_, hmm, hdd⟩
              · rw [hd]
                have : (i :: l2 : List Nat) = i :: (p ++ m :: q) := by rw [hdl']
                rw [this]
                rfl
              · intro j hj
                rcases List.mem_cons.mp hj with h1 | h2
                · subst h1
                  simp [hasModulesAttr, ho, hm]
                · exact hp j h2

theorem sfd_node (g : List Obj) : ∀ f, SearchMatchesDfs g f := by
  intro f
  induction f with
  | zero => exact sfd_node_zero g
  | succ f ih => exact sfd_node_succ g f (sfd_go g f ih)

/-- C8: the recursive search of `_find_modules_dict` terminates on every
finite widget graph, cycles included: its result is the same for any two
fuel values beyond the graph size, because the identity-tracked visited
set shrinks the unvisited count at every non-returning level.  Moreover
it returns the first object in depth-first order exposing a `Modules`
attribute (paired with that attribute), or `none` when no visited object
exposes one. -/
theorem c8_search_terminates_and_first (g : List Obj) (i f₁ f₂ : Nat)
    (h₁ : g.length + 1 ≤ f₁) (h₂ : g.length + 1 ≤ f₂) :
    searchFM g f₁ i [] = searchFM g f₂ i [] ∧
    (searchFM g f₁ i []).fst
      = ((dfsOrder g f₁ i []).fst.find? (fun j => hasModulesAttr g j)).map
          (fun j => (j, getModulesD g j)) := by
  have hb : unvis g [] + 1 ≤ g.length + 1 := by
    have := unvis_le_length g []
    omega
  constructor
  · have e1 : searchFM g f₁ i [] = searchFM g (g.length + 1) i [] := by
      have h := searchFM_fuel_add g (f₁ - (g.length + 1)) (g.length + 1) i [] hb
      rw [show g.length + 1 + (f₁ - (g.length + 1)) = f₁ by omega] at h
      exact h
    have e2 : searchFM g f₂ i [] = searchFM g (g.length + 1) i [] := by
      have h := searchFM_fuel_add g (f₂ - (g.length + 1)) (g.length + 1) i [] hb
      rw [show g.length + 1 + (f₂ - (g.length + 1)) = f₂ by omega] at h
      exact h
    rw [e1, e2]
  · have hn := sfd_node g f₁ i []
    cases hfst : (searchFM g f₁ i []).fst with
    | none =>
        obtain ⟨_, hall⟩ := hn.1 hfst
        have hfind : (dfsOrder g f₁ i []).fst.find? (fun j => hasModulesAttr g j)
            = none := by
          apply List.find?_eq_none.mpr
          intro x hx
          simp [hall x hx]
        rw [hfind]
        rfl
    | some r =>
        obtain ⟨m, d⟩ := r
        obtain ⟨p, q, hdl, hp, hmm, hdd⟩ := hn.2 m d hfst
        rw [hdl, List.find?_append]
        have hpn : p.find? (fun j => hasModulesAttr g j) = none := by
          apply List.find?_eq_none.mpr
          intro x hx
          simp [hp x hx]
        rw [hpn]
        simp [List.find?_cons, hmm, hdd]

/-- Witness for C8 on the cyclic graph (0 → 1 → 0 with the `Modules`
holder at node 2) at two different sufficient fuels. -/
theorem c8_witness :
    cyclicGraph.length + 1 ≤ 4 ∧ cyclicGraph.length + 1 ≤ 5 ∧
    (searchFM cyclicGraph 4 0 [] = searchFM cyclicGraph 5 0 [] ∧
      (searchFM cyclicGraph 4 0 []).fst
        = ((dfsOrder cyclicGraph 4 0 []).fst.find?
            (fun j => hasModulesAttr cyclicGraph j)).map
            (fun j => (j, getModulesD cyclicGraph j))) ∧
    (searchFM cyclicGraph 4 0 []).fst = some (2, sampleReg) :=
  ⟨by decide, by decide,
   c8_search_terminates_and_first cyclicGraph 0 4 5 (by decide) (by decide),
   rfl⟩
